import Mathlib

/-!
# Verification of the data engine of `src/app.py`

Shallow embedding of the loading, aggregation and query logic of the
immigration dashboard (`load_data`, `create_stacked_bar_chart`,
`create_governorate_analysis` and the aggregate expressions in `main`).
Pandas/numpy behaviour is embedded as follows:

* a CSV cell, after `pd.to_numeric(..., errors="coerce")`, is either a
  numeric value, non-numeric text, or empty; `.fillna(0)` turns the two
  NaN-producing cases into `0` (`RawCell`, `coerceCell`);
* `df.nlargest(n, col)` (keep="first", which uses a stable mergesort on
  the selection) and `DataFrame.sort_values(col, ascending=False)`
  (which reverses, stably argsorts ascending, and reverses the indexer;
  numpy's quicksort is an insertion sort — hence stable — on the
  at-most-16-element arrays arising here, there being fewer than
  sixteen governorates) are both embedded as the stable descending
  insertion sort `sortDescBy`;
* `Series.idxmax` and Python's `max(..., key=...)` keep the first
  maximal element; on empty input both raise an untyped `ValueError`;
* exceptions escaping to the caller are modelled as `Except.error`
  carrying the Python exception class name; indexing a frame with a
  missing column raises `KeyError`.
-/

namespace App

/-- A raw CSV cell as seen by `pd.to_numeric(..., errors="coerce")`:
numeric text with value `n` (negative values included), non-numeric
text, or an empty/missing cell. -/
inductive RawCell where
  | num (n : Int)
  | text (s : String)
  | empty
deriving DecidableEq

/-- One raw CSV row: the two URI columns and the remaining cells,
addressed by column name. `cells` is only meaningful on columns that
appear in the table header. -/
structure RawRow where
  districtURI : String
  governorateURI : String
  cells : String → RawCell

/-- Raw tabular input: the header (`df.columns`) and the rows. -/
structure RawTable where
  header : List String
  rows : List RawRow

/-- The `numeric_cols` list hardcoded at app.py lines 59-60. -/
def numericCols : List String :=
  ["Number of Bangladeshi", "Number of Sri Lankan", "Number of Sudanese",
   "Number of Egyptian", "Number of Ethiopians", "Number of Iraqi"]

/-- One cell through `pd.to_numeric(col, errors="coerce").fillna(0)`
(app.py line 64): numeric text keeps its value — negative values
included — while non-numeric text and empty cells become NaN and then
0. -/
def coerceCell : RawCell → Int
  | .num n => n
  | .text _ => 0
  | .empty => 0

/-- Python `s.split("/")` on a character list (app.py lines 67-68);
splitting the empty string yields one empty segment, as in Python. -/
def splitSlash : List Char → List (List Char)
  | [] => [[]]
  | c :: cs =>
    match splitSlash cs with
    | [] => [[]]
    | seg :: segs => if c = '/' then [] :: seg :: segs else (c :: seg) :: segs

/-- Python `s.split("/")[-1]`: the final slash-delimited segment. -/
def lastSegment (cs : List Char) : List Char :=
  ((splitSlash cs).getLast?).getD []

/-- Pandas `.str.replace("_", " ")`: every underscore becomes a space. -/
def underscoreToSpace (cs : List Char) : List Char :=
  cs.map fun c => if c = '_' then ' ' else c

/-- `uri.split("/").str[-1].str.replace("_", " ")` (app.py lines 67-68). -/
def normalizeId (s : String) : String :=
  ⟨underscoreToSpace (lastSegment s.toList)⟩

/-- A loaded row: normalized identifiers, the coerced per-column counts
(meaningful on the declared category columns), and the derived
`Total_Immigrants` column. -/
structure Record where
  district : String
  governorate : String
  counts : String → Int
  total : Int

/-- app.py lines 62-71 applied to one row: coerce each declared numeric
column, derive the district and governorate names, and sum the declared
numeric columns into `Total_Immigrants`. -/
def mkRecord (r : RawRow) : Record where
  district := normalizeId r.districtURI
  governorate := normalizeId r.governorateURI
  counts := fun c => coerceCell (r.cells c)
  total := (numericCols.map fun c => coerceCell (r.cells c)).sum

/-- The loaded dataset: the processed rows in input order plus the list
of recognized category columns returned by `load_data`. -/
structure Dataset where
  records : List Record
  categories : List String

/-- `load_data` (app.py lines 51-76). The per-column coercion loop is
guarded by `if col in df.columns`, but line 71 indexes
`df[numeric_cols]` unconditionally, so a hardcoded column missing from
the header raises `KeyError` there — uncaught, since only
`FileNotFoundError` is handled. The category list returned is always
the hardcoded `numeric_cols`. -/
def loadData (t : RawTable) : Except String Dataset :=
  if numericCols.all fun c => t.header.contains c then
    Except.ok { records := t.rows.map mkRecord, categories := numericCols }
  else Except.error "KeyError"

/-- One step of a stable descending insertion sort by key `f`: the new
element is placed after every already-placed element with a strictly
larger key, and before the first one whose key is not larger — so an
element never passes one with an equal key, which is exactly
stability. -/
def insDescBy (f : α → Int) (x : α) : List α → List α
  | [] => [x]
  | y :: ys => if f x < f y then y :: insDescBy f x ys else x :: y :: ys

/-- Stable descending sort by key `f`. `List.foldr` feeds the input from
the right, so when an element is inserted the list already holds
exactly the elements that follow it in the input. This is the common
embedding of `df.nlargest` (keep="first") and of
`sort_values(ascending=False)`, both stable descending orderings of the
rows (see the module docstring). -/
def sortDescBy (f : α → Int) (l : List α) : List α :=
  l.foldr (insDescBy f) []

/-- `df.nlargest(n, "Total_Immigrants")` (app.py lines 80, 235, 243,
302): the first `n` rows of the stable descending ordering by total;
pandas returns an empty selection — it does not raise — when
`n <= 0`. -/
def nlargest (ds : Dataset) (n : Int) : List Record :=
  if n ≤ 0 then [] else (sortDescBy Record.total ds.records).take n.toNat

/-- `topN` as the engine operation backing the chart: `nlargest` never
raises for an integer argument, so the result is always `Except.ok`. -/
def topN (ds : Dataset) (n : Int) : Except String (List Record) :=
  Except.ok (nlargest ds n)

/-- One governorate's aggregate row of
`df.groupby("Governorate")[numeric_cols].sum()` together with its
`Total` column (app.py lines 116-117). -/
structure GroupSummary where
  governorate : String
  counts : String → Int
  total : Int

/-- The aggregate row for governorate `g`: each declared numeric column
summed over the member records, and `Total` as the sum of those column
sums (app.py lines 116-117). -/
def groupSummary (ds : Dataset) (g : String) : GroupSummary where
  governorate := g
  counts := fun c =>
    (((ds.records.filter fun r => r.governorate = g).map fun r => r.counts c)).sum
  total :=
    (numericCols.map fun c =>
      (((ds.records.filter fun r => r.governorate = g).map fun r => r.counts c)).sum).sum

/-- The group keys of `df.groupby("Governorate")` in the order pandas
yields them: the distinct governorate values sorted ascending
(`groupby` defaults to `sort=True`). -/
def govKeys (ds : Dataset) : List String :=
  ((ds.records.map fun r => r.governorate).dedup).insertionSort (· ≤ ·)

/-- `create_governorate_analysis` / the `gov_data` block of `main`
(app.py lines 116-118 and 265-267): group by governorate, sum the
numeric columns, add `Total`, and sort by `Total` descending. -/
def groupByGovernorate (ds : Dataset) : List GroupSummary :=
  sortDescBy GroupSummary.total ((govKeys ds).map (groupSummary ds))

/-- `df.loc[df["Total_Immigrants"].idxmax(), ...]` (app.py line 178):
the first record attaining the maximal total; `idxmax` on an empty
series raises `ValueError`. -/
def leadingRecord (ds : Dataset) : Except String Record :=
  match ds.records with
  | [] => Except.error "ValueError"
  | r :: rs => Except.ok (rs.foldl (fun best x => if best.total < x.total then x else best) r)

/-- Python `s.replace("Number of ", "")` works by removing every
leftmost non-overlapping occurrence of the ten-character pattern. -/
def numOfPat : List Char := "Number of ".toList

/-- Remove every occurrence of `"Number of "` from a character list,
scanning left to right as Python `str.replace` does. -/
def dropNumOf : List Char → List Char
  | 'N' :: 'u' :: 'm' :: 'b' :: 'e' :: 'r' :: ' ' :: 'o' :: 'f' :: ' ' :: rest =>
    dropNumOf rest
  | c :: cs => c :: dropNumOf cs
  | [] => []

/-- `col.replace("Number of ", "")` (app.py lines 83, 91, 194, 218, 234,
292). -/
def stripNumberOf (s : String) : String := ⟨dropNumOf s.toList⟩

/-- The `nationality_totals` dict of app.py lines 190-194 (rebuilt
identically at lines 288-292), as an association list in insertion
order: for each hardcoded column in order, its grand total, kept only
when strictly positive, keyed by the stripped column name. -/
def nationalityTotals (ds : Dataset) : List (String × Int) :=
  numericCols.filterMap fun c =>
    let t := (ds.records.map fun r => r.counts c).sum
    if 0 < t then some (stripNumberOf c, t) else none

/-- `max(nationality_totals, key=nationality_totals.get)` (app.py line
195): the first pair attaining the maximal value, in dict insertion
order; Python `max` on an empty dict raises `ValueError`. -/
def leadingCategory (l : List (String × Int)) : Except String (String × Int) :=
  match l with
  | [] => Except.error "ValueError"
  | p :: ps => Except.ok (ps.foldl (fun best x => if best.2 < x.2 then x else best) p)

/-- The unguarded percentage expressions of app.py lines 243 and 275:
`part / whole * 100` with no test of the denominator. When
`whole = 0`, numpy true division produces a non-finite float (NaN for
`0/0`, signed infinity otherwise), which no rational represents; that
outcome is modelled as `none`. -/
def percentOfWhole (part whole : Int) : Option ℚ :=
  if whole = 0 then none else some ((part : ℚ) / (whole : ℚ) * 100)

/-- The line-243 insight figure: share of the grand total held by the
top-`n` districts. -/
def pctTopNShare (ds : Dataset) (n : Int) : Option ℚ :=
  percentOfWhole ((nlargest ds n).map Record.total).sum
    ((ds.records.map Record.total).sum)

/-- `cols_to_show` / `filtered_cols` (app.py lines 83 and 234): the
hardcoded numeric columns whose stripped name is in the user's
selection, in source column order. -/
def colsToShow (selected : List String) : List String :=
  numericCols.filter fun c => selected.contains (stripNumberOf c)

/-- The stripped names of all hardcoded columns (`all_nationalities`,
app.py line 218). -/
def allNationalities : List String := numericCols.map stripNumberOf

/-- One plotted trace of the stacked bar chart. -/
structure BarTrace where
  name : String
  xs : List String
  ys : List Int

/-- `create_stacked_bar_chart` (app.py lines 78-112): the x-axis is the
top `n` districts ranked by the ORIGINAL `Total_Immigrants` column
(line 80) — the ranking ignores the nationality selection — and one
bar trace is drawn per selected column, showing that column's counts
for those districts. -/
def stackedBarChart (ds : Dataset) (n : Int) (selected : List String) : List BarTrace :=
  let top := nlargest ds n
  (colsToShow selected).map fun c =>
    { name := stripNumberOf c
      xs := top.map Record.district
      ys := top.map fun r => r.counts c }

/-- The line-242 insight figure: total immigrants over the selected
columns only, summed across all districts. -/
def selectedSum (ds : Dataset) (selected : List String) : Int :=
  ((colsToShow selected).map fun c => (ds.records.map fun r => r.counts c).sum).sum

/-- Modelled from the spec (for refinement comparison only, claim C5):
the district ranking the spec describes for `filteredCategoryView`,
where each record's total is RECOMPUTED as the sum over only the
selected categories before ranking. The source has no such
computation. -/
def specViewRanking (ds : Dataset) (n : Int) (selected : List String) : List String :=
  let recompute := fun (r : Record) => ((colsToShow selected).map r.counts).sum
  if n ≤ 0 then [] else ((sortDescBy recompute ds.records).take n.toNat).map Record.district

/-- Modelled from the spec (for refinement comparison only, claim C2):
the category columns an input's header declares, namely those starting
with `"Number of "`. -/
def specDeclaredCategories (t : RawTable) : List String :=
  t.header.filter fun c => numOfPat.isPrefixOf c.toList

/-! ## Generic facts about the stable descending insertion sort -/

section SortLemmas

variable {α : Type} (f : α → Int)

theorem perm_insDescBy (x : α) (l : List α) : List.Perm (insDescBy f x l) (x :: l) := by
  induction l with
  | nil => exact List.Perm.refl _
  | cons y ys ih =>
    by_cases h : f x < f y
    · simpa [insDescBy, h] using (ih.cons y).trans (List.Perm.swap x y ys)
    · simp [insDescBy, h]

theorem perm_sortDescBy (l : List α) : List.Perm (sortDescBy f l) l := by
  induction l with
  | nil => exact List.Perm.refl _
  | cons a l ih => exact (perm_insDescBy f a (sortDescBy f l)).trans (ih.cons a)

theorem mem_sortDescBy {l : List α} {x : α} (h : x ∈ sortDescBy f l) : x ∈ l :=
  (perm_sortDescBy f l).mem_iff.mp h

theorem pairwise_insDescBy (x : α) (l : List α)
    (h : List.Pairwise (fun a b => f b ≤ f a) l) :
    List.Pairwise (fun a b => f b ≤ f a) (insDescBy f x l) := by
  induction l with
  | nil => simp [insDescBy]
  | cons y ys ih =>
    rcases h with _ | ⟨hy, hys⟩
    by_cases hc : f x < f y
    · simp only [insDescBy, if_pos hc]
      refine List.Pairwise.cons ?_ (ih hys)
      intro z hz
      rcases List.mem_cons.mp ((perm_insDescBy f x ys).mem_iff.mp hz) with rfl | hz
      · exact le_of_lt hc
      · exact hy z hz
    · simp only [insDescBy, if_neg hc]
      refine List.Pairwise.cons ?_ (List.Pairwise.cons hy hys)
      intro z hz
      rcases List.mem_cons.mp hz with rfl | hz
      · exact le_of_not_lt hc
      · exact le_trans (hy z hz) (le_of_not_lt hc)

theorem pairwise_sortDescBy (l : List α) :
    List.Pairwise (fun a b => f b ≤ f a) (sortDescBy f l) := by
  induction l with
  | nil => simp [sortDescBy]
  | cons a l ih => exact pairwise_insDescBy f a (sortDescBy f l) ih

theorem filter_insDescBy (x : α) (l : List α) (t : Int) :
    (insDescBy f x l).filter (fun a => f a == t) =
      if f x = t then x :: l.filter (fun a => f a == t)
      else l.filter (fun a => f a == t) := by
  induction l with
  | nil => by_cases h : f x = t <;> simp [insDescBy, h]
  | cons y ys ih =>
    simp only [insDescBy]
    by_cases hc : f x < f y
    · rw [if_pos hc, List.filter_cons, ih, List.filter_cons]
      by_cases hxt : f x = t
      · have hyt : ¬ f y = t := by omega
        simp [hxt, hyt]
      · by_cases hyt : f y = t <;> simp [hxt, hyt]
    · rw [if_neg hc, List.filter_cons, List.filter_cons]
      by_cases hxt : f x = t <;> by_cases hyt : f y = t <;> simp [hxt, hyt]

theorem filter_sortDescBy (l : List α) (t : Int) :
    (sortDescBy f l).filter (fun a => f a == t) = l.filter (fun a => f a == t) := by
  induction l with
  | nil => rfl
  | cons a l ih =>
    show (insDescBy f a (sortDescBy f l)).filter (fun a => f a == t) = _
    rw [filter_insDescBy, List.filter_cons]
    by_cases h : f a = t
    · rw [if_pos h, beq_iff_eq.mpr h, ih]
      simp
    · rw [if_neg h, beq_eq_false_iff_ne.mpr h, ih]
      simp

theorem pairwise_tiebreak_insDescBy (g : α → String) (x : α) (l : List α)
    (hs : List.Pairwise (fun a b => f b < f a ∨ (f a = f b ∧ g a < g b)) l)
    (hx : ∀ y ∈ l, g x < g y) :
    List.Pairwise (fun a b => f b < f a ∨ (f a = f b ∧ g a < g b)) (insDescBy f x l) := by
  induction l with
  | nil => simp [insDescBy]
  | cons y ys ih =>
    rcases hs with _ | ⟨hy, hys⟩
    by_cases hc : f x < f y
    · simp only [insDescBy, if_pos hc]
      refine List.Pairwise.cons ?_ (ih hys fun z hz => hx z (List.mem_cons_of_mem y hz))
      intro z hz
      rcases List.mem_cons.mp ((perm_insDescBy f x ys).mem_iff.mp hz) with rfl | hz
      · exact Or.inl hc
      · exact hy z hz
    · simp only [insDescBy, if_neg hc]
      refine List.Pairwise.cons ?_ (List.Pairwise.cons hy hys)
      intro z hz
      rcases List.mem_cons.mp hz with rfl | hz
      · rcases lt_or_eq_of_le (le_of_not_lt hc) with h | h
        · exact Or.inl h
        · exact Or.inr ⟨h.symm, hx z (List.mem_cons_self z ys)⟩
      · rcases hy z hz with h | ⟨he, _⟩
        · exact Or.inl (lt_of_lt_of_le h (le_of_not_lt hc))
        · rcases lt_or_eq_of_le (le_trans (le_of_eq he.symm) (le_of_not_lt hc)) with h | h
          · exact Or.inl h
          · exact Or.inr ⟨h.symm, hx z (List.mem_cons_of_mem y hz)⟩

theorem pairwise_tiebreak_sortDescBy (g : α → String) (l : List α)
    (h : List.Pairwise (fun a b => g a < g b) l) :
    List.Pairwise (fun a b => f b < f a ∨ (f a = f b ∧ g a < g b)) (sortDescBy f l) := by
  induction l with
  | nil => simp [sortDescBy]
  | cons a l ih =>
    rcases h with _ | ⟨ha, hl⟩
    exact pairwise_tiebreak_insDescBy f g a (sortDescBy f l) (ih hl)
      fun y hy => ha y (mem_sortDescBy f hy)

end SortLemmas

/-! ## The first-maximum fold behind `idxmax` and Python `max` -/

/-- The left fold shared by `Series.idxmax` and `max(..., key=...)`:
scan left to right keeping the current best, replacing it only on a
strictly larger key. -/
def firstMaxFold (f : α → Int) (h : α) (t : List α) : α :=
  t.foldl (fun best x => if f best < f x then x else best) h

/-- The first-maximum fold returns the first element attaining the
maximum: everything before it is strictly smaller, everything after it
is no larger. -/
theorem firstMaxFold_spec (f : α → Int) :
    ∀ (t : List α) (h : α), ∃ pre post,
      h :: t = pre ++ firstMaxFold f h t :: post ∧
      (∀ x ∈ pre, f x < f (firstMaxFold f h t)) ∧
      (∀ x ∈ post, f x ≤ f (firstMaxFold f h t)) := by
  intro t
  induction t with
  | nil => exact fun h => ⟨[], [], rfl, by simp, by simp⟩
  | cons a t ih =>
    intro h
    by_cases hc : f h < f a
    · have hstep : firstMaxFold f h (a :: t) = firstMaxFold f a t := by
        simp [firstMaxFold, hc]
      rw [hstep]
      obtain ⟨pre, post, hdec, hpre, hpost⟩ := ih a
      have hale : f a ≤ f (firstMaxFold f a t) := by
        cases pre with
        | nil =>
          simp only [List.nil_append] at hdec
          have ha : a = firstMaxFold f a t := (List.cons.injEq _ _ _ _).mp hdec |>.1
          exact le_of_eq (congrArg f ha)
        | cons p pre' =>
          simp only [List.cons_append] at hdec
          have hap : a = p := (List.cons.injEq _ _ _ _).mp hdec |>.1
          have hplt := hpre p (List.mem_cons_self p pre')
          rw [← hap] at hplt
          exact le_of_lt hplt
      refine ⟨h :: pre, post, ?_, ?_, ?_⟩
      · rw [List.cons_append]
        exact congrArg (h :: ·) hdec
      · intro x hx
        rcases List.mem_cons.mp hx with rfl | hx
        · exact lt_of_lt_of_le hc hale
        · exact hpre x hx
      · intro x hx; exact hpost x hx
    · have hstep : firstMaxFold f h (a :: t) = firstMaxFold f h t := by
        simp [firstMaxFold, hc]
      rw [hstep]
      obtain ⟨pre, post, hdec, hpre, hpost⟩ := ih h
      cases pre with
      | nil =>
        simp only [List.nil_append] at hdec
        have hh : h = firstMaxFold f h t := (List.cons.injEq _ _ _ _).mp hdec |>.1
        have ht : t = post := (List.cons.injEq _ _ _ _).mp hdec |>.2
        refine ⟨[], a :: post, ?_, by simp, ?_⟩
        · rw [List.nil_append, ← hh, ← ht]
        · intro x hx
          rcases List.mem_cons.mp hx with rfl | hx
          · rw [← hh]; exact le_of_not_lt hc
          · exact hpost x hx
      | cons p pre' =>
        simp only [List.cons_append] at hdec
        have hh : h = p := (List.cons.injEq _ _ _ _).mp hdec |>.1
        subst hh
        have ht : t = pre' ++ firstMaxFold f h t :: post :=
          (List.cons.injEq _ _ _ _).mp hdec |>.2
        have hhlt : f h < f (firstMaxFold f h t) :=
          hpre h (List.mem_cons_self h pre')
        refine ⟨h :: a :: pre', post, ?_, ?_, ?_⟩
        · rw [List.cons_append, List.cons_append, ← ht]
        · intro x hx
          rcases List.mem_cons.mp hx with rfl | hx
          · exact hhlt
          · rcases List.mem_cons.mp hx with rfl | hx
            · exact lt_of_le_of_lt (le_of_not_lt hc) hhlt
            · exact hpre x (List.mem_cons_of_mem h hx)
        · intro x hx; exact hpost x hx


/-! ## Facts about Python string splitting -/

theorem splitSlash_ne_nil (cs : List Char) : splitSlash cs ≠ [] := by
  cases cs with
  | nil => simp [splitSlash]
  | cons c cs =>
    simp only [splitSlash]
    cases splitSlash cs with
    | nil => simp
    | cons seg segs => by_cases h : c = '/' <;> simp [h]

theorem splitSlash_append (xs ys : List Char) :
    splitSlash (xs ++ '/' :: ys) = splitSlash xs ++ splitSlash ys := by
  induction xs with
  | nil =>
    cases hys : splitSlash ys with
    | nil => exact absurd hys (splitSlash_ne_nil ys)
    | cons seg segs => simp [splitSlash, hys]
  | cons c xs ih =>
    cases hxs : splitSlash xs with
    | nil => exact absurd hxs (splitSlash_ne_nil xs)
    | cons seg segs =>
      by_cases h : c = '/' <;> simp [splitSlash, ih, hxs, h]

theorem splitSlash_no_slash (cs : List Char) (h : ('/' : Char) ∉ cs) :
    splitSlash cs = [cs] := by
  induction cs with
  | nil => rfl
  | cons c cs ih =>
    have hc : ¬ c = '/' := fun e => h (e ▸ List.mem_cons_self c cs)
    have hcs : ('/' : Char) ∉ cs := fun m => h (List.mem_cons_of_mem c m)
    simp [splitSlash, ih hcs, hc]

theorem lastSegment_append (xs ys : List Char) :
    lastSegment (xs ++ '/' :: ys) = lastSegment ys := by
  unfold lastSegment
  rw [splitSlash_append]
  cases hys : splitSlash ys with
  | nil => exact absurd hys (splitSlash_ne_nil ys)
  | cons seg segs => rw [← hys, List.getLast?_append_of_ne_nil _ (splitSlash_ne_nil ys)]

theorem lastSegment_no_slash (cs : List Char) (h : ('/' : Char) ∉ cs) :
    lastSegment cs = cs := by
  unfold lastSegment
  rw [splitSlash_no_slash cs h]
  rfl

/-! ## Concrete inputs used by witnesses and counterexamples -/

/-- Build a row's cell function from an association list; columns not
listed hold an empty cell. -/
def mkCells (l : List (String × RawCell)) : String → RawCell :=
  fun c => (((l.find? fun p => p.1 == c).map Prod.snd).getD RawCell.empty)

/-- The worked scenario of the spec: districts A and B in governorate X,
district C in governorate Y. -/
def exTable : RawTable where
  header := ["District URI", "Governorate URI"] ++ numericCols
  rows :=
    [ { districtURI := "d/A", governorateURI := "g/X",
        cells := mkCells [("Number of Bangladeshi", RawCell.num 10),
                          ("Number of Iraqi", RawCell.num 5)] },
      { districtURI := "d/B", governorateURI := "g/X", cells := mkCells [] },
      { districtURI := "d/C", governorateURI := "g/Y",
        cells := mkCells [("Number of Bangladeshi", RawCell.num 3)] } ]

/-- The dataset `load_data` produces from `exTable`. -/
def exDs : Dataset where
  records := exTable.rows.map mkRecord
  categories := numericCols

/-- A table with a negative numeric cell. -/
def tblNeg : RawTable where
  header := ["District URI", "Governorate URI"] ++ numericCols
  rows :=
    [ { districtURI := "d/N", governorateURI := "g/N",
        cells := mkCells [("Number of Iraqi", RawCell.num (-5))] } ]

/-- A table whose header lacks every hardcoded category column. -/
def tblMissing : RawTable where
  header := ["District URI", "Governorate URI", "Number of Syrian"]
  rows := []

/-- A table whose header declares a seventh `Number of <Category>`
column beyond the hardcoded six. -/
def tbl7 : RawTable where
  header := ["District URI", "Governorate URI"] ++ numericCols ++ ["Number of Syrian"]
  rows := []

/-- The dataset `load_data` produces from `tbl7`. -/
def ds7 : Dataset where
  records := tbl7.rows.map mkRecord
  categories := numericCols

/-- District A dominated by a category outside the selection, district B
holding all of the selected category. -/
def tbl5 : RawTable where
  header := ["District URI", "Governorate URI"] ++ numericCols
  rows :=
    [ { districtURI := "d/A", governorateURI := "g/X",
        cells := mkCells [("Number of Iraqi", RawCell.num 100)] },
      { districtURI := "d/B", governorateURI := "g/X",
        cells := mkCells [("Number of Bangladeshi", RawCell.num 5)] } ]

/-- The dataset `load_data` produces from `tbl5`. -/
def ds5 : Dataset where
  records := tbl5.rows.map mkRecord
  categories := numericCols

/-- Two categories tied at the same positive grand total. -/
def tieTable : RawTable where
  header := ["District URI", "Governorate URI"] ++ numericCols
  rows :=
    [ { districtURI := "d/T", governorateURI := "g/T",
        cells := mkCells [("Number of Bangladeshi", RawCell.num 7),
                          ("Number of Iraqi", RawCell.num 7)] } ]

/-- The dataset `load_data` produces from `tieTable`. -/
def tieDs : Dataset where
  records := tieTable.rows.map mkRecord
  categories := numericCols

/-- A loaded dataset with zero records. -/
def emptyDs : Dataset where
  records := []
  categories := numericCols

/-! ## Claim theorems -/

/-- C8: `district_id` and `governorate_id` are derived by taking the
final segment of the slash-delimited identifier string and replacing
every underscore with a space; a string with no slash is its own
segment. -/
theorem normalizeId_spec : ∀ (pre post : List Char),
    (('/' : Char) ∉ post →
      normalizeId ⟨pre ++ '/' :: post⟩ = ⟨underscoreToSpace post⟩) ∧
    (('/' : Char) ∉ pre → normalizeId ⟨pre⟩ = ⟨underscoreToSpace pre⟩) ∧
    (∀ r : RawRow, (mkRecord r).district = normalizeId r.districtURI ∧
      (mkRecord r).governorate = normalizeId r.governorateURI) := by
  intro pre post
  refine ⟨?_, ?_, fun r => ⟨rfl, rfl⟩⟩
  · intro h
    show String.mk (underscoreToSpace (lastSegment (pre ++ '/' :: post))) = _
    rw [lastSegment_append, lastSegment_no_slash post h]
  · intro h
    show String.mk (underscoreToSpace (lastSegment pre)) = _
    rw [lastSegment_no_slash pre h]

/-- Witness for C8 at the concrete URI `"g/Beirut_City"`. -/
theorem normalizeId_spec_witness :
    (('/' : Char) ∉ "Beirut_City".toList) ∧
    normalizeId ⟨"g".toList ++ '/' :: "Beirut_City".toList⟩ =
      ⟨underscoreToSpace "Beirut_City".toList⟩ :=
  ⟨by decide, (normalizeId_spec "g".toList "Beirut_City".toList).1 (by decide)⟩

/-- C1: every loaded Record's total is the sum of its per-category
counts, and every GroupSummary's total is the sum of its per-category
sums, each of which sums that category over the member records of the
governorate. -/
theorem totals_invariant : ∀ (t : RawTable) (ds : Dataset), loadData t = Except.ok ds →
    (∀ r ∈ ds.records, r.total = (ds.categories.map r.counts).sum) ∧
    (∀ g ∈ groupByGovernorate ds,
      g.total = (ds.categories.map g.counts).sum ∧
      ∀ c, g.counts c =
        ((ds.records.filter fun r => r.governorate = g.governorate).map
          fun r => r.counts c).sum) := by
  intro t ds h
  unfold loadData at h
  split at h
  · injection h with h2
    subst h2
    constructor
    · intro r hr
      obtain ⟨row, _, rfl⟩ := List.mem_map.mp hr
      rfl
    · intro g hg
      obtain ⟨k, _, rfl⟩ :=
        List.mem_map.mp (mem_sortDescBy GroupSummary.total hg)
      exact ⟨rfl, fun c => rfl⟩
  · exact Except.noConfusion h

/-- Witness for C1 on the spec's worked scenario. -/
theorem totals_invariant_witness :
    (∀ r ∈ exDs.records, r.total = (exDs.categories.map r.counts).sum) ∧
    (∀ g ∈ groupByGovernorate exDs,
      g.total = (exDs.categories.map g.counts).sum ∧
      ∀ c, g.counts c =
        ((exDs.records.filter fun r => r.governorate = g.governorate).map
          fun r => r.counts c).sum) :=
  totals_invariant exTable exDs rfl

/-- C2 (counterexample): on a header declaring a seventh
`Number of <Category>` column, the loader still returns the hardcoded
six categories, which do not match the input's declared category
columns. -/
theorem categories_not_dynamic_cex :
    (loadData tbl7).map Dataset.categories = Except.ok numericCols ∧
    specDeclaredCategories tbl7 ≠ numericCols :=
  ⟨rfl, by decide⟩

/-- C2 (amended): the category list is hardcoded, not discovered from
the header: every successful load returns exactly the six hardcoded
columns, and an input missing any hardcoded column fails the whole load
with `KeyError` instead of adapting. -/
theorem categories_hardcoded : ∀ (t : RawTable),
    (∀ ds, loadData t = Except.ok ds → ds.categories = numericCols) ∧
    ((numericCols.all fun c => t.header.contains c) = false →
      loadData t = Except.error "KeyError") := by
  intro t
  constructor
  · intro ds h
    unfold loadData at h
    split at h
    · injection h with h2
      rw [← h2]
    · exact Except.noConfusion h
  · intro hcond
    unfold loadData
    rw [hcond]
    rfl

/-- Witness for C2 (amended) at `tbl7` and `tblMissing`. -/
theorem categories_hardcoded_witness :
    ds7.categories = numericCols ∧ loadData tblMissing = Except.error "KeyError" :=
  ⟨(categories_hardcoded tbl7).1 ds7 rfl,
   (categories_hardcoded tblMissing).2 (by decide)⟩

/-- C3 (counterexample): a negative numeric cell is NOT coerced to 0 —
the loaded record carries the negative count. -/
theorem negative_count_preserved_cex :
    (loadData tblNeg).map (fun ds => ds.records.map fun r => r.counts "Number of Iraqi") =
      Except.ok [-5] ∧ (-5 : Int) < 0 :=
  ⟨rfl, by decide⟩

/-- C3 (amended): when every hardcoded column is present, every row is
loaded, unparsable and empty cells coerce to 0, but a numeric cell
keeps its value even when negative; when a hardcoded column is absent
the whole load fails with `KeyError` (no per-field zero default). -/
theorem coercion_amended : ∀ (t : RawTable),
    ((numericCols.all fun c => t.header.contains c) = true →
      ∃ ds, loadData t = Except.ok ds ∧
        ds.records = t.rows.map mkRecord ∧
        ds.records.length = t.rows.length ∧
        ∀ row ∈ t.rows, ∀ c : String,
          ((mkRecord row).counts c = coerceCell (row.cells c) ∧
           (∀ s, row.cells c = RawCell.text s → (mkRecord row).counts c = 0) ∧
           (row.cells c = RawCell.empty → (mkRecord row).counts c = 0) ∧
           (∀ n : Int, row.cells c = RawCell.num n → (mkRecord row).counts c = n))) ∧
    ((numericCols.all fun c => t.header.contains c) = false →
      loadData t = Except.error "KeyError") := by
  intro t
  constructor
  · intro hcond
    refine ⟨⟨t.rows.map mkRecord, numericCols⟩, ?_, rfl, by simp, ?_⟩
    · unfold loadData
      rw [hcond]
      rfl
    · intro row _ c
      refine ⟨rfl, ?_, ?_, ?_⟩
      · intro s hs
        show coerceCell (row.cells c) = 0
        rw [hs]
        rfl
      · intro hs
        show coerceCell (row.cells c) = 0
        rw [hs]
        rfl
      · intro n hn
        show coerceCell (row.cells c) = n
        rw [hn]
        rfl
  · intro hcond
    unfold loadData
    rw [hcond]
    rfl

/-- Witness for C3 (amended) at `tblNeg` and `tblMissing`. -/
theorem coercion_amended_witness :
    (∃ ds, loadData tblNeg = Except.ok ds ∧
      ds.records = tblNeg.rows.map mkRecord ∧
      ds.records.length = tblNeg.rows.length ∧
      ∀ row ∈ tblNeg.rows, ∀ c : String,
        ((mkRecord row).counts c = coerceCell (row.cells c) ∧
         (∀ s, row.cells c = RawCell.text s → (mkRecord row).counts c = 0) ∧
         (row.cells c = RawCell.empty → (mkRecord row).counts c = 0) ∧
         (∀ n : Int, row.cells c = RawCell.num n → (mkRecord row).counts c = n))) ∧
    loadData tblMissing = Except.error "KeyError" :=
  ⟨(coercion_amended tblNeg).1 (by decide),
   (coercion_amended tblMissing).2 (by decide)⟩

/-- C6 (counterexample): a zero whole does not yield 0.0 — the unguarded
division produces a non-finite float (modelled `none`), already at
`part = 0`. -/
theorem percentOfWhole_zero_cex :
    percentOfWhole 0 0 = none ∧ percentOfWhole 0 0 ≠ some 0 :=
  ⟨rfl, by decide⟩

/-- C6 (amended): the percentage expression divides unguarded: a zero
whole yields a non-finite float (modelled `none`), never 0.0; a nonzero
whole yields `part / whole * 100`; in particular on an empty dataset
the top-N share is non-finite, not 0. -/
theorem percentOfWhole_amended : ∀ (x w : Int) (ds : Dataset) (n : Int),
    (w = 0 → percentOfWhole x w = none) ∧
    (w ≠ 0 → percentOfWhole x w = some ((x : ℚ) / (w : ℚ) * 100)) ∧
    (ds.records = [] → pctTopNShare ds n = none) := by
  intro x w ds n
  refine ⟨fun h => by simp [percentOfWhole, h], fun h => by simp [percentOfWhole, h],
    fun h => ?_⟩
  have hw : (ds.records.map Record.total).sum = 0 := by rw [h]; rfl
  unfold pctTopNShare
  rw [hw]
  simp [percentOfWhole]

/-- Witness for C6 (amended) at concrete arguments. -/
theorem percentOfWhole_amended_witness :
    ((0 : Int) = 0 ∧ percentOfWhole 7 0 = none) ∧
    ((2 : Int) ≠ 0 ∧ percentOfWhole 7 2 = some ((7 : ℚ) / (2 : ℚ) * 100)) ∧
    (emptyDs.records = [] ∧ pctTopNShare emptyDs 3 = none) :=
  ⟨⟨rfl, (percentOfWhole_amended 7 0 emptyDs 3).1 rfl⟩,
   ⟨by decide, (percentOfWhole_amended 7 2 emptyDs 3).2.1 (by decide)⟩,
   ⟨rfl, (percentOfWhole_amended 7 0 emptyDs 3).2.2 rfl⟩⟩


/-- Summation over a rectangle of integers can be done in either
order. -/
theorem sum_map_swap (l1 : List α) (l2 : List β) (f : α → β → Int) :
    (l1.map fun a => (l2.map fun b => f a b).sum).sum =
    (l2.map fun b => (l1.map fun a => f a b).sum).sum := by
  induction l1 with
  | nil =>
    induction l2 with
    | nil => rfl
    | cons b l2 ih2 =>
      simp only [List.map_nil, List.sum_nil, List.map_cons, List.sum_cons] at ih2 ⊢
      omega
  | cons a l1 ih =>
    simp only [List.map_cons, List.sum_cons, ih, List.sum_map_add]

/-- C4 (counterexample): `topN` with `n = 0` returns an empty result; it
does not fail with `InvalidArgument`. -/
theorem topN_nonpositive_cex :
    topN exDs 0 = Except.ok [] ∧
    topN exDs 0 ≠ Except.error "InvalidArgument" := by
  refine ⟨rfl, ?_⟩
  intro h
  rw [show topN exDs 0 = Except.ok [] from rfl] at h
  exact Except.noConfusion h

/-- C4 (amended): for positive `n` the result is the first `n` records
of the stable descending ordering by total (descending, ties in input
order, the whole — sorted — dataset when `n` exceeds its size); for
`n ≤ 0` the call returns an empty result instead of failing. -/
theorem topN_amended : ∀ (ds : Dataset) (n : Int),
    (n ≤ 0 → topN ds n = Except.ok []) ∧
    (0 < n → topN ds n = Except.ok ((sortDescBy Record.total ds.records).take n.toNat)) ∧
    List.Pairwise (fun a b => b.total ≤ a.total) (sortDescBy Record.total ds.records) ∧
    List.Perm (sortDescBy Record.total ds.records) ds.records ∧
    (∀ t : Int, (sortDescBy Record.total ds.records).filter (fun r => r.total == t) =
      ds.records.filter (fun r => r.total == t)) ∧
    ((ds.records.length : Int) ≤ n → List.Perm (nlargest ds n) ds.records) := by
  intro ds n
  refine ⟨?_, ?_, pairwise_sortDescBy Record.total ds.records,
    perm_sortDescBy Record.total ds.records,
    filter_sortDescBy Record.total ds.records, ?_⟩
  · intro h
    simp [topN, nlargest, h]
  · intro h
    have h0 : ¬ n ≤ 0 := not_le.mpr h
    simp [topN, nlargest, h0]
  · intro h
    by_cases h0 : n ≤ 0
    · have hlen : ds.records.length = 0 := by omega
      have hnil : ds.records = [] := List.length_eq_zero.mp hlen
      simp [nlargest, h0, hnil]
    · have hn : ds.records.length ≤ n.toNat := by omega
      have hlen : (sortDescBy Record.total ds.records).length = ds.records.length :=
        (perm_sortDescBy Record.total ds.records).length_eq
      rw [nlargest, if_neg h0, List.take_of_length_le (by rw [hlen]; exact hn)]
      exact perm_sortDescBy Record.total ds.records

/-- Witness for C4 (amended) on the worked scenario. -/
theorem topN_amended_witness :
    ((0 : Int) ≤ 0 ∧ topN exDs 0 = Except.ok []) ∧
    ((0 : Int) < 2 ∧ topN exDs 2 =
      Except.ok ((sortDescBy Record.total exDs.records).take (2 : Int).toNat)) ∧
    ((exDs.records.length : Int) ≤ 7 ∧ List.Perm (nlargest exDs 7) exDs.records) :=
  ⟨⟨by decide, (topN_amended exDs 0).1 (by decide)⟩,
   ⟨by decide, (topN_amended exDs 2).2.1 (by decide)⟩,
   ⟨by decide, (topN_amended exDs 7).2.2.2.2.2 (by decide)⟩⟩

/-- C5 (counterexample): with only Bangladeshi selected, the chart still
ranks district A (whose immigrants are all Iraqi) first, while the
spec's recomputed-total ranking would put district B first. -/
theorem filtered_ranking_cex :
    (stackedBarChart ds5 1 ["Bangladeshi"]).map BarTrace.xs = [["A"]] ∧
    specViewRanking ds5 1 ["Bangladeshi"] = ["B"] ∧
    (["A"] : List String) ≠ ["B"] :=
  ⟨rfl, rfl, by decide⟩

/-- C5 (amended): the category filter restricts which bars are drawn and
which columns enter the selected-population aggregate, but the district
ranking keeps using the original all-category totals; selecting every
category reproduces the unfiltered totals. -/
theorem filtered_view_amended :
    ∀ (t : RawTable) (ds : Dataset) (n : Int) (sel : List String),
    loadData t = Except.ok ds →
    (∀ tr ∈ stackedBarChart ds n sel, tr.xs = (nlargest ds n).map Record.district) ∧
    selectedSum ds allNationalities = (ds.records.map Record.total).sum := by
  intro t ds n sel h
  constructor
  · intro tr htr
    obtain ⟨c, _, rfl⟩ := List.mem_map.mp htr
    rfl
  · have hcols : colsToShow allNationalities = numericCols := by decide
    unfold selectedSum
    rw [hcols, sum_map_swap numericCols ds.records fun c r => r.counts c]
    unfold loadData at h
    split at h
    · injection h with h2
      subst h2
      refine congrArg List.sum (List.map_congr_left ?_)
      intro r hr
      obtain ⟨row, _, rfl⟩ := List.mem_map.mp hr
      rfl
    · exact Except.noConfusion h

/-- Witness for C5 (amended) on the worked scenario. -/
theorem filtered_view_amended_witness :
    (∀ tr ∈ stackedBarChart exDs 2 ["Iraqi"],
      tr.xs = (nlargest exDs 2).map Record.district) ∧
    selectedSum exDs allNationalities = (exDs.records.map Record.total).sum :=
  filtered_view_amended exTable exDs 2 ["Iraqi"] rfl

/-- C7: the governorate analysis sums every category and the total over
the records of each governorate and returns the summaries ordered by
descending total, ties broken by ascending governorate name. -/
theorem groupByGovernorate_spec : ∀ (ds : Dataset),
    List.Pairwise
      (fun a b => b.total < a.total ∨ (a.total = b.total ∧ a.governorate < b.governorate))
      (groupByGovernorate ds) ∧
    List.Perm ((groupByGovernorate ds).map GroupSummary.governorate)
      ((ds.records.map fun r => r.governorate).dedup) ∧
    (∀ g ∈ groupByGovernorate ds,
      (∀ c, g.counts c = ((ds.records.filter fun r => r.governorate = g.governorate).map
          fun r => r.counts c).sum) ∧
      g.total = (numericCols.map g.counts).sum) := by
  intro ds
  have hkeys : List.Pairwise (· < ·) (govKeys ds) := by
    have hsorted : List.Sorted (· ≤ ·) (govKeys ds) :=
      List.sorted_insertionSort (· ≤ ·)
        ((ds.records.map fun (r : Record) => r.governorate).dedup)
    have hnodup : (govKeys ds).Nodup :=
      ((List.perm_insertionSort (· ≤ ·) _).nodup_iff).mpr
        (List.nodup_dedup (ds.records.map fun r => r.governorate))
    exact List.Sorted.lt_of_le hsorted hnodup
  refine ⟨?_, ?_, ?_⟩
  · apply pairwise_tiebreak_sortDescBy GroupSummary.total GroupSummary.governorate
    rw [List.pairwise_map]
    exact hkeys
  · have h1 := (perm_sortDescBy GroupSummary.total
      ((govKeys ds).map (groupSummary ds))).map GroupSummary.governorate
    rw [List.map_map] at h1
    have h2 : (govKeys ds).map (GroupSummary.governorate ∘ groupSummary ds) = govKeys ds :=
      List.map_id'' (fun x => rfl) (govKeys ds)
    exact (h2 ▸ h1).trans (List.perm_insertionSort (· ≤ ·) _)
  · intro g hg
    obtain ⟨k, _, rfl⟩ :=
      List.mem_map.mp (mem_sortDescBy GroupSummary.total hg)
    exact ⟨fun c => rfl, rfl⟩

/-- Witness for C7 on the worked scenario (governorate X of the
output). -/
theorem groupByGovernorate_spec_witness :
    (∀ c, (groupSummary exDs "X").counts c =
      ((exDs.records.filter fun r =>
          r.governorate = (groupSummary exDs "X").governorate).map
        fun r => r.counts c).sum) ∧
    (groupSummary exDs "X").total = (numericCols.map (groupSummary exDs "X").counts).sum :=
  (groupByGovernorate_spec exDs).2.2 (groupSummary exDs "X") (by
    have hd : (exDs.records.map fun r => r.governorate).dedup = ["X", "Y"] := rfl
    have hk : govKeys exDs = ["X", "Y"] := by
      unfold govKeys
      rw [hd]
      simp [List.insertionSort, List.orderedInsert]
      decide
    have hg : groupByGovernorate exDs =
        [groupSummary exDs "X", groupSummary exDs "Y"] := by
      unfold groupByGovernorate
      rw [hk]
      rfl
    rw [hg]
    exact List.mem_cons_self _ _)

/-- C9 (counterexample): on an empty dataset `leadingRecord` fails with
the untyped Python `ValueError` raised by `idxmax`, not with a distinct
`EmptyDataset` error; `leadingCategory` on the empty totals mapping
likewise. -/
theorem leadingRecord_untyped_error_cex :
    leadingRecord emptyDs = Except.error "ValueError" ∧
    leadingRecord emptyDs ≠ Except.error "EmptyDataset" ∧
    leadingCategory (nationalityTotals emptyDs) = Except.error "ValueError" := by
  refine ⟨rfl, ?_, rfl⟩
  intro h
  rw [show leadingRecord emptyDs = Except.error "ValueError" from rfl] at h
  injection h with h2
  exact absurd h2 (by decide)

/-- C9 (amended): the empty-dataset failures are untyped `ValueError`s;
on a non-empty dataset `leadingRecord` returns the record of maximal
total, ties resolved by first occurrence in input order. -/
theorem leading_amended : ∀ (ds : Dataset) (l : List (String × Int)),
    (ds.records = [] → leadingRecord ds = Except.error "ValueError") ∧
    (ds.records ≠ [] → ∃ r pre post, leadingRecord ds = Except.ok r ∧
      ds.records = pre ++ r :: post ∧ (∀ x ∈ pre, x.total < r.total) ∧
      (∀ x ∈ post, x.total ≤ r.total)) ∧
    (l = [] → leadingCategory l = Except.error "ValueError") := by
  intro ds l
  refine ⟨?_, ?_, ?_⟩
  · intro h
    unfold leadingRecord
    rw [h]
  · intro h
    cases hrec : ds.records with
    | nil => exact absurd hrec h
    | cons r0 rs =>
      obtain ⟨pre, post, hdec, hpre, hpost⟩ := firstMaxFold_spec Record.total rs r0
      refine ⟨firstMaxFold Record.total r0 rs, pre, post, ?_, hdec, hpre, hpost⟩
      unfold leadingRecord
      rw [hrec]
      rfl
  · intro h
    unfold leadingCategory
    rw [h]

/-- Witness for C9 (amended) at the empty and the worked datasets. -/
theorem leading_amended_witness :
    (emptyDs.records = [] ∧ leadingRecord emptyDs = Except.error "ValueError") ∧
    (exDs.records ≠ [] ∧ (∃ r pre post, leadingRecord exDs = Except.ok r ∧
      exDs.records = pre ++ r :: post ∧ (∀ x ∈ pre, x.total < r.total) ∧
      (∀ x ∈ post, x.total ≤ r.total))) ∧
    (([] : List (String × Int)) = [] ∧
      leadingCategory ([] : List (String × Int)) = Except.error "ValueError") :=
  ⟨⟨rfl, (leading_amended emptyDs []).1 rfl⟩,
   ⟨fun h => List.noConfusion h,
    (leading_amended exDs []).2.1 fun h => List.noConfusion h⟩,
   ⟨rfl, (leading_amended emptyDs []).2.2 rfl⟩⟩

/-- C10: when categories tie at the maximal positive grand total,
`leadingCategory` returns the pair whose column appears earliest in the
source column order: everything before the returned pair in the
insertion-ordered totals mapping is strictly smaller, everything after
it is no larger. -/
theorem leadingCategory_first_tie : ∀ (ds : Dataset),
    nationalityTotals ds ≠ [] →
    ∃ p pre post, leadingCategory (nationalityTotals ds) = Except.ok p ∧
      nationalityTotals ds = pre ++ p :: post ∧
      (∀ q ∈ pre, q.2 < p.2) ∧ (∀ q ∈ post, q.2 ≤ p.2) := by
  intro ds h
  cases hnt : nationalityTotals ds with
  | nil => exact absurd hnt h
  | cons p0 ps =>
    obtain ⟨pre, post, hdec, hpre, hpost⟩ := firstMaxFold_spec Prod.snd ps p0
    exact ⟨firstMaxFold Prod.snd p0 ps, pre, post, rfl, hdec, hpre, hpost⟩

/-- Witness for C10 on a dataset where Bangladeshi and Iraqi tie at 7. -/
theorem leadingCategory_first_tie_witness :
    nationalityTotals tieDs ≠ [] ∧
    (∃ p pre post, leadingCategory (nationalityTotals tieDs) = Except.ok p ∧
      nationalityTotals tieDs = pre ++ p :: post ∧
      (∀ q ∈ pre, q.2 < p.2) ∧ (∀ q ∈ post, q.2 ≤ p.2)) :=
  ⟨by decide, leadingCategory_first_tie tieDs (by decide)⟩

end App
